import Mathlib

/-!
Verification development for the CodeTrace session recorder.

The definitions below are a shallow embedding of the recording core in
src/extension.ts: the data model, the GitTracker commit polling, the
RecordingManager lifecycle state machine and the EventStore persistence
layer.  Timestamps are modelled as milliseconds since the epoch (the
getTime view of a Date); host collaborators (the RegExp engine, the
filesystem directory, the persistence outcome) are explicit parameters.
-/

set_option maxHeartbeats 1000000

namespace CodeTrace

/-- A single file change recorded on save: workspace-relative path, save
timestamp in milliseconds, and the full content snapshot. -/
structure FileChange where
  file : String
  timestamp : Nat
  content : String
deriving DecidableEq, Repr

/-- Git commit info kept for a session. -/
structure CommitInfo where
  hash : String
  message : String
  author : String
  timestamp : Nat
deriving DecidableEq, Repr

/-- Stats calculated at the end of a session. -/
structure SessionStats where
  filesChanged : Nat
  commitsCount : Nat
  duration : String
deriving DecidableEq, Repr

/-- The main session object, the shape persisted as JSON.  The summary is an
opaque externally attached object, modelled as a string. -/
structure SessionData where
  sessionId : String
  startTime : Nat
  endTime : Option Nat
  repository : Option String
  changes : List FileChange
  commits : List CommitInfo
  stats : Option SessionStats
  summary : Option String
deriving DecidableEq, Repr

/-- calculateDuration from the source: minutes between the two timestamps,
rounded (round half toward positive infinity, as Math.round does), rendered
as a decimal string. -/
def calculateDuration (startTime endTime : Nat) : String :=
  let diff : Int := (endTime : Int) - (startTime : Int)
  toString ((diff + 30000).fdiv 60000)

/-- The glob-to-regex translation performed inside shouldIgnoreFile: replace
every occurrence of a double star, then of a single star, then of a dot, in
exactly this order (later replacements also rewrite text produced by earlier
ones, as in the source). -/
def globToRegexPattern (pat : String) : String :=
  ((pat.replace "**" ".*").replace "*" "[^/]*").replace "." "\\."

/-- The host regular-expression engine, an external collaborator: test takes
the regex source produced by globToRegexPattern and the subject string. -/
structure RegexEngine where
  test : String → String → Bool

/-- shouldIgnoreFile from the source: walk the configured patterns in order;
each pattern examined is translated and freshly compiled (the second
component counts regex compilations performed by this call), and the walk
returns true at the first matching pattern. -/
def shouldIgnoreFile (eng : RegexEngine) (filePath : String) :
    List String → Bool × Nat
  | [] => (false, 0)
  | p :: rest =>
    if eng.test (globToRegexPattern p) filePath then (true, 1)
    else
      let r := shouldIgnoreFile eng filePath rest
      (r.1, r.2 + 1)

namespace GitTracker

/-- The scan inside checkForNewCommits: walk the fetched log newest first and
collect commits until the stored checkpoint hash is reached; the checkpoint
commit itself is not collected. -/
def collectNewCommits (lastSeen : String) : List CommitInfo → List CommitInfo
  | [] => []
  | c :: rest =>
    if c.hash = lastSeen then [] else c :: collectNewCommits lastSeen rest

/-- One poll of checkForNewCommits as a pure function of the fetched log
(newest first, at most ten entries) and the stored checkpoint.  Returns the
commits passed to the callback in emission order (oldest first, the scan
order reversed) and the new checkpoint: the hash of the newest commit of the
log when the log is nonempty, the old checkpoint otherwise. -/
def checkForNewCommits (log10 : List CommitInfo) (lastSeen : String) :
    List CommitInfo × String :=
  let newCommits := (collectNewCommits lastSeen log10).reverse
  match log10.head? with
  | some latest => (newCommits, latest.hash)
  | none => (newCommits, lastSeen)

/-- Iterated polls against a fixed log; accumulates every emission. -/
def iteratePolls (log10 : List CommitInfo) : Nat → String → List CommitInfo × String
  | 0, lastSeen => ([], lastSeen)
  | n + 1, lastSeen =>
    let r := checkForNewCommits log10 lastSeen
    let rest := iteratePolls log10 n r.2
    (r.1 ++ rest.1, rest.2)

/-- The GitTracker fields relevant to tracking: whether a poll timer is
installed and whether the commit callback reference is set. -/
structure State where
  isGitRepo : Bool
  lastSeenCommitHash : String
  pollActive : Bool
  hasCallback : Bool
deriving DecidableEq, Repr

/-- stopTracking from the source: clear the poll interval, then null the
callback reference; both happen before any suspended poll can resume. -/
def stopTracking (s : State) : State :=
  { s with pollActive := false, hasCallback := false }

/-- Resumption of a poll that had already passed its entry guard and was
suspended at the log fetch when stopTracking ran.  With the callback
reference cleared, the first attempted invocation raises, the surrounding
catch swallows the error, and no commit is emitted (and the checkpoint is
not advanced); with no new commits nothing is invoked and the checkpoint
still advances.  With the callback still set this is an ordinary poll. -/
def checkResume (callback : Bool) (log10 : List CommitInfo) (lastSeen : String) :
    List CommitInfo × String :=
  let r := checkForNewCommits log10 lastSeen
  if callback then r
  else if r.1.isEmpty then ([], r.2)
  else ([], lastSeen)

end GitTracker

/-- Lexicographic comparison of character lists by code point, the order the
host Array.sort applies to the filename strings. -/
def listCharLe : List Char → List Char → Bool
  | [], _ => true
  | _ :: _, [] => false
  | a :: as, b :: bs =>
    if a.toNat < b.toNat then true
    else if b.toNat < a.toNat then false
    else listCharLe as bs

/-- The string order used to sort stored session filenames. -/
def strLe (a b : String) : Bool := listCharLe a.data b.data

/-- The same order as a decidable relation, for use with insertionSort. -/
def strLeP : String → String → Prop := fun a b => strLe a b = true

instance : DecidableRel strLeP := fun a b =>
  instDecidableEqBool (strLe a b) true

/-- The filename sanitization from the source: colons and periods of the
start timestamp are replaced with dashes. -/
def sanitizeTimestamp (t : String) : String :=
  (t.replace ":" "-").replace "." "-"

/-- Stands for the ISO-8601 rendering of a millisecond timestamp by the host
Date type; modelled as the decimal rendering, which is likewise injective. -/
def isoEncode (t : Nat) : String := toString t

/-- The deterministic document name derived from the session start time. -/
def sessionFilename (startTime : Nat) : String :=
  "session-" ++ sanitizeTimestamp (isoEncode startTime) ++ ".json"

/-- Whether a string starts with the given piece (String.startsWith). -/
def strStartsWith (s p : String) : Bool :=
  decide (s.data.take p.data.length = p.data)

/-- Whether a string ends with the given piece (String.endsWith). -/
def strEndsWith (s p : String) : Bool :=
  decide (s.data.drop (s.data.length - p.data.length) = p.data)

/-- The filter used on directory listings: only session documents count. -/
def isSessionFileName (name : String) : Bool :=
  strStartsWith name "session-" && strEndsWith name ".json"

namespace RecordingManager

/-- The RecordingManager fields: recording flag, the in-memory session, the
save-event subscription, the watcher, and the incremental unique-file
tracking used for the status bar and the final stats. -/
structure State where
  isRecording : Bool
  currentSession : Option SessionData
  saveListener : Bool
  watcherActive : Bool
  filesChangedCount : Nat
  uniqueFilesChanged : List String
deriving DecidableEq, Repr

/-- The state of a freshly constructed RecordingManager. -/
def initialState : State :=
  { isRecording := false, currentSession := none, saveListener := false,
    watcherActive := false, filesChangedCount := 0, uniqueFilesChanged := [] }

/-- startRecording from the source.  Rejected with a warning and no state
change while already recording; rejected when no workspace folder is open.
Otherwise creates a fresh session (repository only when git is available),
resets the counters, subscribes the save listener and, when git is
available, starts the commit watcher. -/
def startRecording (hasWorkspace gitAvailable : Bool) (repoName newId : String)
    (now : Nat) (s : State) : State :=
  if s.isRecording then s
  else if !hasWorkspace then s
  else
    { isRecording := true
      currentSession := some
        { sessionId := newId
          startTime := now
          endTime := none
          repository := if gitAvailable then some repoName else none
          changes := []
          commits := []
          stats := none
          summary := none }
      saveListener := true
      watcherActive := gitAvailable
      filesChangedCount := 0
      uniqueFilesChanged := [] }

/-- recordFileSave from the source.  A no-op without a current session or
while not recording; otherwise the ignore rules are evaluated (the second
component reports the regex compilations that evaluation performed), and an
accepted save appends a FileChange with timestamp now and updates the
unique-file tracking. -/
def recordFileSave (eng : RegexEngine) (ignorePatterns : List String)
    (file content : String) (now : Nat) (s : State) : State × Nat :=
  match s.currentSession with
  | none => (s, 0)
  | some sess =>
    if !s.isRecording then (s, 0)
    else
      let ig := shouldIgnoreFile eng file ignorePatterns
      if ig.1 then (s, ig.2)
      else
        let sess2 := { sess with changes := sess.changes ++ [⟨file, now, content⟩] }
        if file ∈ s.uniqueFilesChanged then
          ({ s with currentSession := some sess2 }, ig.2)
        else
          let uniq := s.uniqueFilesChanged ++ [file]
          ({ s with currentSession := some sess2
                    uniqueFilesChanged := uniq
                    filesChangedCount := uniq.length }, ig.2)

/-- recordCommit from the source: a no-op without a current session or while
not recording, otherwise appends the commit to the session. -/
def recordCommit (c : CommitInfo) (s : State) : State :=
  match s.currentSession with
  | none => s
  | some sess =>
    if !s.isRecording then s
    else { s with currentSession := some { sess with commits := sess.commits ++ [c] } }

/-- The externally visible steps stopRecording performs, in execution
order. -/
inductive StopStep where
  | stopWatcher
  | unsubscribeSave
  | finalize
  | persist
deriving DecidableEq, Repr

/-- The finalization performed by stopRecording: set endTime to now and
compute the stats from the incremental file count, the commit list and the
elapsed time. -/
def finalizeSession (now : Nat) (filesChangedCount : Nat) (sess : SessionData) :
    SessionData :=
  { sess with
      endTime := some now
      stats := some
        { filesChanged := filesChangedCount
          commitsCount := sess.commits.length
          duration := calculateDuration sess.startTime now } }

/-- stopRecording from the source.  Rejected with a warning and no state
change while not recording (and nothing is persisted).  Otherwise it stops
the git tracker, then disposes the save listener if subscribed, then (when a
session exists) finalizes the session and attempts persistence; the outcome
of persistence (the persistOk parameter) decides only whether a document is
written, never the state reset.  Returns the new state, the trace of steps
performed in order, and the persisted document if any. -/
def stopRecording (now : Nat) (persistOk : Bool) (s : State) :
    State × List StopStep × Option SessionData :=
  if !s.isRecording then (s, [], none)
  else
    let t2 := [StopStep.stopWatcher] ++
      (if s.saveListener then [StopStep.unsubscribeSave] else [])
    match s.currentSession with
    | some sess =>
      let fin := finalizeSession now s.filesChangedCount sess
      ({ isRecording := false, currentSession := none, saveListener := false,
         watcherActive := false, filesChangedCount := 0, uniqueFilesChanged := [] },
       t2 ++ [StopStep.finalize, StopStep.persist],
       if persistOk then some fin else none)
    | none =>
      ({ isRecording := false, currentSession := none, saveListener := false,
         watcherActive := false, filesChangedCount := 0, uniqueFilesChanged := [] },
       t2, none)

/-- An ingestion event delivered to the manager while it may be recording. -/
inductive RecEvent where
  | save (file content : String) (time : Nat)
  | commit (c : CommitInfo)
deriving DecidableEq, Repr

/-- Dispatch of one ingestion event; the second component is the number of
regex compilations the event caused. -/
def applyEvent (eng : RegexEngine) (ignorePatterns : List String) (s : State) :
    RecEvent → State × Nat
  | .save f c t => recordFileSave eng ignorePatterns f c t s
  | .commit c => (recordCommit c s, 0)

/-- Run a sequence of ingestion events, accumulating the total number of
regex compilations performed. -/
def runEvents (eng : RegexEngine) (ignorePatterns : List String) :
    State → List RecEvent → State × Nat
  | s, [] => (s, 0)
  | s, e :: rest =>
    let r := applyEvent eng ignorePatterns s e
    let r2 := runEvents eng ignorePatterns r.1 rest
    (r2.1, r.2 + r2.2)

/-- cleanupOldSessions from the source: the sorted session filenames are
shifted (oldest, lexicographically least, first) while the count is still at
or above the configured maximum; the survivors are returned. -/
def cleanupOldSessions (maxSessions : Nat) : List String → List String
  | [] => []
  | f :: rest =>
    if maxSessions ≤ rest.length + 1 then cleanupOldSessions maxSessions rest
    else f :: rest

/-- Net effect of saveSessionToFile on the directory contents (a list of
distinct file names): list the directory, keep the session documents, sort
them, run cleanup (deleting the files cleanup dropped), then write the new
document. -/
def saveSessionToFile (maxSessions : Nat) (dir : List String) (newFile : String) :
    List String :=
  let sessionFiles := (dir.filter (fun n => isSessionFileName n)).insertionSort strLeP
  let keep := cleanupOldSessions maxSessions sessionFiles
  dir.filter (fun n => !isSessionFileName n || decide (n ∈ keep)) ++ [newFile]

end RecordingManager

/-- The JSON document model: what JSON.parse returns for a stored session
document, and what JSON.stringify serializes. -/
inductive Json where
  | null
  | str (s : String)
  | num (n : Int)
  | arr (elems : List Json)
  | obj (fields : List (String × Json))
deriving Repr

/-- Field lookup in a JSON object body. -/
def Json.findField (name : String) : List (String × Json) → Option Json
  | [] => none
  | f :: rest => if f.1 = name then some f.2 else Json.findField name rest

/-- Field access on a JSON value. -/
def Json.getField : Json → String → Option Json
  | .obj fields, name => Json.findField name fields
  | _, _ => none

def Json.asStr : Json → Option String
  | .str s => some s
  | _ => none

def Json.asNat : Json → Option Nat
  | .num n => if 0 ≤ n then some n.toNat else none
  | _ => none

def Json.asArr : Json → Option (List Json)
  | .arr xs => some xs
  | _ => none

/-- An optional field: JSON.stringify omits fields holding undefined. -/
def optField (name : String) : Option Json → List (String × Json)
  | some j => [(name, j)]
  | none => []

/-- Decode every element of a JSON array; any failure fails the whole
decode. -/
def decodeList (dec : Json → Option α) : List Json → Option (List α)
  | [] => some []
  | j :: rest => do
    let a ← dec j
    let as ← decodeList dec rest
    pure (a :: as)

def FileChange.toJson (c : FileChange) : Json :=
  .obj [("file", .str c.file), ("timestamp", .num (c.timestamp : Int)),
        ("content", .str c.content)]

def FileChange.fromJson (j : Json) : Option FileChange := do
  let file ← (j.getField "file").bind Json.asStr
  let ts ← (j.getField "timestamp").bind Json.asNat
  let content ← (j.getField "content").bind Json.asStr
  pure ⟨file, ts, content⟩

def CommitInfo.toJson (c : CommitInfo) : Json :=
  .obj [("hash", .str c.hash), ("message", .str c.message),
        ("author", .str c.author), ("timestamp", .num (c.timestamp : Int))]

def CommitInfo.fromJson (j : Json) : Option CommitInfo := do
  let hash ← (j.getField "hash").bind Json.asStr
  let message ← (j.getField "message").bind Json.asStr
  let author ← (j.getField "author").bind Json.asStr
  let ts ← (j.getField "timestamp").bind Json.asNat
  pure ⟨hash, message, author, ts⟩

def SessionStats.toJson (st : SessionStats) : Json :=
  .obj [("filesChanged", .num (st.filesChanged : Int)),
        ("commitsCount", .num (st.commitsCount : Int)),
        ("duration", .str st.duration)]

def SessionStats.fromJson (j : Json) : Option SessionStats := do
  let fc ← (j.getField "filesChanged").bind Json.asNat
  let cc ← (j.getField "commitsCount").bind Json.asNat
  let du ← (j.getField "duration").bind Json.asStr
  pure ⟨fc, cc, du⟩

/-- Serialization of a session document, mirroring JSON.stringify of the
session object: fields holding undefined are omitted. -/
def SessionData.toJson (s : SessionData) : Json :=
  .obj ([("sessionId", .str s.sessionId),
         ("startTime", .num (s.startTime : Int))]
    ++ optField "endTime" (s.endTime.map (fun t => .num (t : Int)))
    ++ optField "repository" (s.repository.map .str)
    ++ [("changes", .arr (s.changes.map FileChange.toJson)),
        ("commits", .arr (s.commits.map CommitInfo.toJson))]
    ++ optField "stats" (s.stats.map SessionStats.toJson)
    ++ optField "summary" (s.summary.map .str))

/-- The reading of a parsed session document performed by its consumers:
each mandatory field is required, optional fields may be absent. -/
def SessionData.fromJson (j : Json) : Option SessionData := do
  let sid ← (j.getField "sessionId").bind Json.asStr
  let st ← (j.getField "startTime").bind Json.asNat
  let changesJson ← (j.getField "changes").bind Json.asArr
  let changes ← decodeList FileChange.fromJson changesJson
  let commitsJson ← (j.getField "commits").bind Json.asArr
  let commits ← decodeList CommitInfo.fromJson commitsJson
  pure
    { sessionId := sid
      startTime := st
      endTime := (j.getField "endTime").bind Json.asNat
      repository := (j.getField "repository").bind Json.asStr
      changes := changes
      commits := commits
      stats := (j.getField "stats").bind SessionStats.fromJson
      summary := (j.getField "summary").bind Json.asStr }

/-- A stored document: its filename and the outcome of JSON.parse on its
bytes (none models a CorruptRecord whose parse throws). -/
structure StoredFile where
  name : String
  parsed : Option Json

/-- loadAllSessions from the source: list the directory, keep session
documents, sort ascending, reverse to most-recent-first, then read and parse
each document in that order, skipping (and logging) every document whose
parse fails. -/
def loadAllSessions (dir : List StoredFile) : List Json :=
  let names := (((dir.filter (fun f => isSessionFileName f.name)).map
      StoredFile.name).insertionSort strLeP).reverse
  names.filterMap
    (fun n => (dir.find? (fun f => decide (f.name = n))).bind StoredFile.parsed)

/-- Writing a document: a document with the same name is overwritten. -/
def storeWrite (dir : List StoredFile) (name : String) (j : Json) :
    List StoredFile :=
  dir.filter (fun f => decide (f.name ≠ name)) ++ [⟨name, some j⟩]

/-- Reading one document by name. -/
def storeRead (dir : List StoredFile) (name : String) : Option Json :=
  (dir.find? (fun f => decide (f.name = name))).bind StoredFile.parsed

end CodeTrace

namespace CodeTrace

theorem collectNewCommits_split (lastSeen : String) (pre post : List CommitInfo)
    (c : CommitInfo) (hc : c.hash = lastSeen) (hpre : ∀ d ∈ pre, d.hash ≠ lastSeen) :
    GitTracker.collectNewCommits lastSeen (pre ++ c :: post) = pre := by
  induction pre with
  | nil => simp [GitTracker.collectNewCommits, hc]
  | cons a as ih =>
    have ha : a.hash ≠ lastSeen := hpre a (by simp)
    simp only [List.cons_append, GitTracker.collectNewCommits, if_neg ha, List.append_eq]
    rw [ih (fun d hd => hpre d (by simp [hd]))]

theorem iteratePolls_no_new (log10 : List CommitInfo) (lastSeen : String)
    (h : GitTracker.checkForNewCommits log10 lastSeen = ([], lastSeen)) :
    ∀ n, GitTracker.iteratePolls log10 n lastSeen = ([], lastSeen) := by
  intro n
  induction n with
  | zero => rfl
  | succ m ih =>
    simp only [GitTracker.iteratePolls]
    rw [h]
    simpa using ih

theorem checkForNewCommits_split (lastSeen : String) (pre post : List CommitInfo)
    (c : CommitInfo) (hc : c.hash = lastSeen) (hpre : ∀ d ∈ pre, d.hash ≠ lastSeen) :
    GitTracker.checkForNewCommits (pre ++ c :: post) lastSeen =
      (pre.reverse, ((pre ++ c :: post).headD c).hash) := by
  have hcol := collectNewCommits_split lastSeen pre post c hc hpre
  cases pre with
  | nil => simp_all [GitTracker.checkForNewCommits]
  | cons a as => simp_all [GitTracker.checkForNewCommits]

/-- Claim C1: on each poll the watcher scans the fetched commits newest to
oldest, stops at the stored checkpoint hash without re-emitting that commit,
emits every commit scanned before the checkpoint oldest first, and then
advances the checkpoint to the hash of the newest commit of the poll; hence
any number of polls with zero new commits emit nothing, and after exactly
one new commit exactly one emission fires with that commit and the
checkpoint becomes its hash. -/
theorem commit_poll_correct (lastSeen : String) (pre post : List CommitInfo)
    (c : CommitInfo) (hc : c.hash = lastSeen) (hpre : ∀ d ∈ pre, d.hash ≠ lastSeen) :
    (GitTracker.checkForNewCommits (pre ++ c :: post) lastSeen).1 = pre.reverse ∧
    (GitTracker.checkForNewCommits (pre ++ c :: post) lastSeen).2 =
      ((pre ++ c :: post).headD c).hash ∧
    (pre = [] → ∀ n : Nat,
      GitTracker.iteratePolls (pre ++ c :: post) n lastSeen = ([], lastSeen)) ∧
    (∀ c1, pre = [c1] →
      GitTracker.checkForNewCommits (pre ++ c :: post) lastSeen = ([c1], c1.hash)) := by
  have hmain := checkForNewCommits_split lastSeen pre post c hc hpre
  refine ⟨by rw [hmain], by rw [hmain], ?_, ?_⟩
  · intro hpre0 n
    subst hpre0
    have h0 : GitTracker.checkForNewCommits ([] ++ c :: post) lastSeen = ([], lastSeen) := by
      rw [hmain]; simp [hc]
    simpa using iteratePolls_no_new (c :: post) lastSeen (by simpa using h0) n
  · intro c1 hpre1
    subst hpre1
    rw [hmain]
    simp

/-- Witness for C1 at a concrete log: one new commit on top of the
checkpointed commit is emitted exactly once and becomes the checkpoint. -/
theorem commit_poll_correct_witness :
    (GitTracker.checkForNewCommits
        [⟨"c2", "m2", "aa", 2⟩, ⟨"c1", "m1", "aa", 1⟩] "c1") =
      ([⟨"c2", "m2", "aa", 2⟩], "c2") := by
  have h := commit_poll_correct "c1" [⟨"c2", "m2", "aa", 2⟩] []
    ⟨"c1", "m1", "aa", 1⟩ rfl (by decide)
  simpa using h.2.2.2 ⟨"c2", "m2", "aa", 2⟩ rfl

/-- Claim C7: stopTracking cancels the poll timer and clears the callback
reference, and a poll that was already in flight and resumes against the
cleared callback completes without emitting any commit. -/
theorem stop_tracking_safe (g : GitTracker.State) (log10 : List CommitInfo)
    (lastSeen : String) :
    (GitTracker.stopTracking g).pollActive = false ∧
    (GitTracker.stopTracking g).hasCallback = false ∧
    (GitTracker.checkResume (GitTracker.stopTracking g).hasCallback log10 lastSeen).1
      = [] := by
  refine ⟨rfl, rfl, ?_⟩
  simp only [GitTracker.stopTracking, GitTracker.checkResume]
  by_cases h : (GitTracker.checkForNewCommits log10 lastSeen).1.isEmpty <;> simp [h]

theorem applyEvent_noop (eng : RegexEngine) (pats : List String)
    (s : RecordingManager.State) (e : RecordingManager.RecEvent)
    (h : s.isRecording = false ∨ s.currentSession = none) :
    RecordingManager.applyEvent eng pats s e = (s, 0) := by
  cases e with
  | save f c t =>
    simp only [RecordingManager.applyEvent, RecordingManager.recordFileSave]
    cases hcs : s.currentSession with
    | none => rfl
    | some sess =>
      rcases h with h | h
      · simp [h]
      · rw [h] at hcs; exact absurd hcs (by simp)
  | commit c =>
    simp only [RecordingManager.applyEvent, RecordingManager.recordCommit]
    cases hcs : s.currentSession with
    | none => rfl
    | some sess =>
      rcases h with h | h
      · simp [h]
      · rw [h] at hcs; exact absurd hcs (by simp)

theorem stopRecording_idle (now : Nat) (ok : Bool) (s : RecordingManager.State) :
    (RecordingManager.stopRecording now ok s).1.isRecording = false ∧
    ((RecordingManager.stopRecording now ok s).1.currentSession = none ∨
      (RecordingManager.stopRecording now ok s).1 = s ∧ s.isRecording = false) := by
  simp only [RecordingManager.stopRecording]
  by_cases h : s.isRecording
  · cases hcs : s.currentSession <;> simp [h, hcs]
  · simp only [Bool.not_eq_true] at h
    simp [h]

/-- Claim C10: an ingestion event delivered while the recorder is not
recording or has no current session is a complete no-op on the manager
state (changes, commits, and the unique-file tracking included), and in
particular every event arriving after any stopRecording call is such a
no-op. -/
theorem late_event_noop (eng : RegexEngine) (pats : List String)
    (s : RecordingManager.State) (e : RecordingManager.RecEvent)
    (h : s.isRecording = false ∨ s.currentSession = none) :
    RecordingManager.applyEvent eng pats s e = (s, 0) ∧
    (∀ (now : Nat) (ok : Bool) (s2 : RecordingManager.State),
      RecordingManager.applyEvent eng pats (RecordingManager.stopRecording now ok s2).1 e
        = ((RecordingManager.stopRecording now ok s2).1, 0)) := by
  refine ⟨applyEvent_noop eng pats s e h, fun now ok s2 => ?_⟩
  exact applyEvent_noop eng pats _ e (Or.inl (stopRecording_idle now ok s2).1)

/-- Witness for C10: a commit event arriving at the idle initial state, and
a save event arriving after a stop, change nothing. -/
theorem late_event_noop_witness :
    RecordingManager.applyEvent ⟨fun _ _ => false⟩ []
        RecordingManager.initialState (.commit ⟨"h", "m", "au", 5⟩) =
      (RecordingManager.initialState, 0) :=
  (late_event_noop ⟨fun _ _ => false⟩ [] RecordingManager.initialState
    (.commit ⟨"h", "m", "au", 5⟩) (Or.inl (by decide))).1

end CodeTrace

namespace CodeTrace

/-- A concrete session used by closed witnesses. -/
def exampleSession : SessionData :=
  { sessionId := "sid", startTime := 0, endTime := none, repository := none,
    changes := [], commits := [], stats := none, summary := none }

/-- A concrete mid-recording manager state used by closed witnesses. -/
def exampleRecordingState : RecordingManager.State :=
  { isRecording := true, currentSession := some exampleSession,
    saveListener := true, watcherActive := true,
    filesChangedCount := 0, uniqueFilesChanged := [] }

/-- Claim C2 counterexample: stopRecording does not perform the teardown in
the claimed order (save source first, watcher second); on a concrete
recording state the observed trace puts the watcher stop before the
save-source unsubscription. -/
theorem stop_teardown_order_counterexample :
    (RecordingManager.stopRecording 600000 true exampleRecordingState).2.1 ≠
      [RecordingManager.StopStep.unsubscribeSave, RecordingManager.StopStep.stopWatcher,
       RecordingManager.StopStep.finalize, RecordingManager.StopStep.persist] := by
  decide

/-- Claim C2 (amended): when called while recording with a current session
and a subscribed save listener, stopRecording performs, in this order,
(1) stop the commit watcher, (2) unsubscribe the file-save source,
(3) set endTime to now and compute the stats, (4) attempt persistence; and
regardless of the persistence outcome the state transitions to idle and the
in-memory session reference is cleared. -/
theorem stop_teardown_order (now : Nat) (persistOk : Bool)
    (s : RecordingManager.State) (sess : SessionData)
    (hrec : s.isRecording = true) (hl : s.saveListener = true)
    (hs : s.currentSession = some sess) :
    (RecordingManager.stopRecording now persistOk s).2.1 =
      [RecordingManager.StopStep.stopWatcher, RecordingManager.StopStep.unsubscribeSave,
       RecordingManager.StopStep.finalize, RecordingManager.StopStep.persist] ∧
    (RecordingManager.stopRecording now persistOk s).2.2 =
      (if persistOk then
        some (RecordingManager.finalizeSession now s.filesChangedCount sess)
       else none) ∧
    (RecordingManager.finalizeSession now s.filesChangedCount sess).endTime = some now ∧
    (RecordingManager.finalizeSession now s.filesChangedCount sess).stats =
      some { filesChanged := s.filesChangedCount
             commitsCount := sess.commits.length
             duration := calculateDuration sess.startTime now } ∧
    (RecordingManager.stopRecording now persistOk s).1.isRecording = false ∧
    (RecordingManager.stopRecording now persistOk s).1.currentSession = none := by
  refine ⟨?_, ?_, rfl, rfl, ?_, ?_⟩ <;>
    simp [RecordingManager.stopRecording, hrec, hl, hs]

/-- Witness for the amended C2: on a concrete recording state with a failing
persistence step, the trace is watcher first, and the manager still ends
idle with the session cleared. -/
theorem stop_teardown_order_witness :
    (RecordingManager.stopRecording 600000 false exampleRecordingState).2.1 =
      [RecordingManager.StopStep.stopWatcher, RecordingManager.StopStep.unsubscribeSave,
       RecordingManager.StopStep.finalize, RecordingManager.StopStep.persist] ∧
    (RecordingManager.stopRecording 600000 false exampleRecordingState).1.isRecording
      = false := by
  have h := stop_teardown_order 600000 false exampleRecordingState exampleSession
    rfl rfl rfl
  exact ⟨h.1, h.2.2.2.2.1⟩

/-- Claim C3: startRecording while already recording is rejected with no
state mutation, so two consecutive starts create exactly one session and
the second does not reset startTime; stopRecording while idle is rejected
with no state change and persists nothing. -/
theorem duplicate_operation_rejected (s : RecordingManager.State) :
    (s.isRecording = true →
      ∀ (hw g : Bool) (rn id : String) (now : Nat),
        RecordingManager.startRecording hw g rn id now s = s) ∧
    (s.isRecording = false →
      ∀ (now : Nat) (ok : Bool),
        RecordingManager.stopRecording now ok s = (s, [], none)) ∧
    (∀ (g : Bool) (rn id : String) (now : Nat),
      (RecordingManager.startRecording true g rn id now
          RecordingManager.initialState).currentSession =
        some { sessionId := id, startTime := now, endTime := none,
               repository := if g then some rn else none,
               changes := [], commits := [], stats := none, summary := none } ∧
      ∀ (hw2 g2 : Bool) (rn2 id2 : String) (now2 : Nat),
        RecordingManager.startRecording hw2 g2 rn2 id2 now2
            (RecordingManager.startRecording true g rn id now
              RecordingManager.initialState) =
          RecordingManager.startRecording true g rn id now
            RecordingManager.initialState) := by
  refine ⟨?_, ?_, ?_⟩
  · intro h hw g rn id now
    simp [RecordingManager.startRecording, h]
  · intro h now ok
    simp [RecordingManager.stopRecording, h]
  · intro g rn id now
    constructor
    · simp [RecordingManager.startRecording, RecordingManager.initialState]
    · intro hw2 g2 rn2 id2 now2
      simp [RecordingManager.startRecording, RecordingManager.initialState]

/-- Witness for C3: a second start on a concrete recording state changes
nothing, and a stop on the idle initial state changes nothing and persists
nothing. -/
theorem duplicate_operation_rejected_witness :
    RecordingManager.startRecording true true "repo" "id2" 99 exampleRecordingState =
      exampleRecordingState ∧
    RecordingManager.stopRecording 7 true RecordingManager.initialState =
      (RecordingManager.initialState, [], none) := by
  refine ⟨?_, ?_⟩
  · exact (duplicate_operation_rejected exampleRecordingState).1 (by decide)
      true true "repo" "id2" 99
  · exact (duplicate_operation_rejected RecordingManager.initialState).2.1 (by decide) 7 true

end CodeTrace

namespace CodeTrace

/-- The change log of the current session, empty when no session exists. -/
def sessionChanges (s : RecordingManager.State) : List FileChange :=
  match s.currentSession with
  | some sess => sess.changes
  | none => []

/-- The unique-file tracking invariant maintained by the manager: the
membership set held for the status bar is exactly the set of file paths of
the recorded changes, without duplicates, and the displayed count is its
size. -/
def trackingInvariant (s : RecordingManager.State) : Prop :=
  s.uniqueFilesChanged.Nodup ∧
  (∀ f, f ∈ s.uniqueFilesChanged ↔ f ∈ (sessionChanges s).map FileChange.file) ∧
  s.filesChangedCount = s.uniqueFilesChanged.length


theorem trackingInvariant_recordCommit (c : CommitInfo)
    (s : RecordingManager.State) (h : trackingInvariant s) :
    trackingInvariant (RecordingManager.recordCommit c s) := by
  obtain ⟨hnd, hmem, hcnt⟩ := h
  cases hcs : s.currentSession with
  | none =>
    simp only [RecordingManager.recordCommit, hcs]
    exact ⟨hnd, hmem, hcnt⟩
  | some sess =>
    by_cases hr : s.isRecording
    · simp only [RecordingManager.recordCommit, hcs, hr, Bool.not_true,
        Bool.false_eq_true, if_false]
      refine ⟨hnd, ?_, hcnt⟩
      intro f
      rw [hmem f]
      simp [sessionChanges, hcs]
    · simp only [Bool.not_eq_true] at hr
      simp only [RecordingManager.recordCommit, hcs, hr, Bool.not_false, if_true]
      exact ⟨hnd, hmem, hcnt⟩

theorem trackingInvariant_recordFileSave (eng : RegexEngine) (pats : List String)
    (f c : String) (t : Nat) (s : RecordingManager.State) (h : trackingInvariant s) :
    trackingInvariant (RecordingManager.recordFileSave eng pats f c t s).1 := by
  obtain ⟨hnd, hmem, hcnt⟩ := h
  cases hcs : s.currentSession with
  | none =>
    simp only [RecordingManager.recordFileSave, hcs]
    exact ⟨hnd, hmem, hcnt⟩
  | some sess =>
    by_cases hr : s.isRecording
    case neg =>
      simp only [Bool.not_eq_true] at hr
      simp only [RecordingManager.recordFileSave, hcs, hr, Bool.not_false, if_true]
      exact ⟨hnd, hmem, hcnt⟩
    case pos =>
      simp only [RecordingManager.recordFileSave, hcs, hr, Bool.not_true,
        Bool.false_eq_true, if_false]
      by_cases hig : (shouldIgnoreFile eng f pats).1
      · simp only [hig, if_true]
        exact ⟨hnd, hmem, hcnt⟩
      · simp only [hig, Bool.false_eq_true, if_false]
        have hmem2 : ∀ x, x ∈ s.uniqueFilesChanged ↔ x ∈ sess.changes.map FileChange.file := by
          intro x
          rw [hmem x]
          simp [sessionChanges, hcs]
        by_cases hfm : f ∈ s.uniqueFilesChanged
        · simp only [hfm, if_true]
          refine ⟨hnd, ?_, hcnt⟩
          intro x
          have hfc : f ∈ sess.changes.map FileChange.file := (hmem2 f).mp hfm
          rw [hmem2 x]
          simp only [sessionChanges, List.map_append]
          constructor
          · intro hx
            exact List.mem_append_left _ hx
          · intro hx
            rcases List.mem_append.mp hx with hx | hx
            · exact hx
            · simp at hx
              rw [hx]; exact hfc
        · simp only [hfm, if_false]
          refine ⟨?_, ?_, rfl⟩
          · simp [List.nodup_append, hnd, hfm]
          · intro x
            simp only [List.mem_append, List.mem_singleton, sessionChanges,
              List.map_append]
            rw [hmem2 x]
            simp

theorem trackingInvariant_applyEvent (eng : RegexEngine) (pats : List String)
    (s : RecordingManager.State) (e : RecordingManager.RecEvent)
    (h : trackingInvariant s) :
    trackingInvariant (RecordingManager.applyEvent eng pats s e).1 := by
  cases e with
  | save f c t => exact trackingInvariant_recordFileSave eng pats f c t s h
  | commit c => exact trackingInvariant_recordCommit c s h

theorem trackingInvariant_runEvents (eng : RegexEngine) (pats : List String)
    (events : List RecordingManager.RecEvent) :
    ∀ s, trackingInvariant s →
      trackingInvariant (RecordingManager.runEvents eng pats s events).1 := by
  induction events with
  | nil => intro s h; exact h
  | cons e rest ih =>
    intro s h
    simp only [RecordingManager.runEvents]
    exact ih _ (trackingInvariant_applyEvent eng pats s e h)

theorem applyEvent_isRecording (eng : RegexEngine) (pats : List String)
    (s : RecordingManager.State) (e : RecordingManager.RecEvent) :
    ((RecordingManager.applyEvent eng pats s e).1).isRecording = s.isRecording := by
  cases e with
  | save f c t =>
    simp only [RecordingManager.applyEvent]
    cases hcs : s.currentSession with
    | none => simp [RecordingManager.recordFileSave, hcs]
    | some sess =>
      by_cases hr : s.isRecording
      · simp only [RecordingManager.recordFileSave, hcs, hr, Bool.not_true,
          Bool.false_eq_true, if_false]
        by_cases hig : (shouldIgnoreFile eng f pats).1 <;>
          by_cases hfm : f ∈ s.uniqueFilesChanged <;>
          simp [hig, hfm, hr]
      · simp only [Bool.not_eq_true] at hr
        simp [RecordingManager.recordFileSave, hcs, hr]
  | commit c =>
    simp only [RecordingManager.applyEvent]
    cases hcs : s.currentSession with
    | none => simp [RecordingManager.recordCommit, hcs]
    | some sess =>
      by_cases hr : s.isRecording
      · simp [RecordingManager.recordCommit, hcs, hr]
      · simp only [Bool.not_eq_true] at hr
        simp [RecordingManager.recordCommit, hcs, hr]

theorem runEvents_isRecording (eng : RegexEngine) (pats : List String)
    (events : List RecordingManager.RecEvent) :
    ∀ s, ((RecordingManager.runEvents eng pats s events).1).isRecording
      = s.isRecording := by
  induction events with
  | nil => intro s; rfl
  | cons e rest ih =>
    intro s
    simp only [RecordingManager.runEvents]
    rw [ih, applyEvent_isRecording]

theorem count_eq_dedup_length (u l : List String)
    (hnd : u.Nodup) (hmem : ∀ f, f ∈ u ↔ f ∈ l) : u.length = l.dedup.length := by
  have h1 : u.toFinset = l.toFinset := by
    ext x
    simp only [List.mem_toFinset]
    exact hmem x
  calc u.length = u.toFinset.card := (List.toFinset_card_of_nodup hnd).symm
    _ = l.toFinset.card := by rw [h1]
    _ = l.dedup.length := List.card_toFinset l

end CodeTrace

namespace CodeTrace

/-- A regex engine that never matches, for closed runs where the ignore
rules are irrelevant. -/
def noMatchEngine : RegexEngine := ⟨fun _ _ => false⟩

/-- The manager state after a startRecording on a fresh manager followed by
a sequence of ingestion events. -/
def runFromStart (eng : RegexEngine) (pats : List String) (g : Bool)
    (rn id : String) (t0 : Nat) (events : List RecordingManager.RecEvent) :
    RecordingManager.State :=
  (RecordingManager.runEvents eng pats
    (RecordingManager.startRecording true g rn id t0 RecordingManager.initialState)
    events).1

/-- Claim C4: for every session finalized by stopRecording, the stats hold
filesChanged equal to the number of distinct file paths of the changes,
commitsCount equal to the length of the commit list, and duration equal to
the elapsed minutes rounded, as a string; in particular the five-minute
scenario with two saves of the same file and one commit yields stats of one
file, one commit, duration "5", two changes and one commit. -/
theorem stats_correct (eng : RegexEngine) (pats : List String) (g : Bool)
    (rn id : String) (t0 : Nat) (events : List RecordingManager.RecEvent)
    (now : Nat) (ok : Bool) (sess : SessionData)
    (hs : (runFromStart eng pats g rn id t0 events).currentSession = some sess) :
    (RecordingManager.stopRecording now ok (runFromStart eng pats g rn id t0 events)).2.2 =
      (if ok then
        some (RecordingManager.finalizeSession now
          (runFromStart eng pats g rn id t0 events).filesChangedCount sess)
       else none) ∧
    (RecordingManager.finalizeSession now
        (runFromStart eng pats g rn id t0 events).filesChangedCount sess).stats =
      some { filesChanged := (sess.changes.map FileChange.file).dedup.length
             commitsCount := sess.commits.length
             duration := calculateDuration sess.startTime now } ∧
    (RecordingManager.stopRecording 300000 true
        (runFromStart noMatchEngine [] false "" "sid" 0
          [.save "a.ts" "content1" 60000,
           .commit ⟨"abc123", "msg", "me", 120000⟩,
           .save "a.ts" "content2" 180000])).2.2 =
      some { sessionId := "sid", startTime := 0, endTime := some 300000,
             repository := none,
             changes := [⟨"a.ts", 60000, "content1"⟩, ⟨"a.ts", 180000, "content2"⟩],
             commits := [⟨"abc123", "msg", "me", 120000⟩],
             stats := some { filesChanged := 1, commitsCount := 1, duration := "5" },
             summary := none } := by
  have hrec : (runFromStart eng pats g rn id t0 events).isRecording = true := by
    unfold runFromStart
    rw [runEvents_isRecording]
    simp [RecordingManager.startRecording, RecordingManager.initialState]
  have hinv : trackingInvariant (runFromStart eng pats g rn id t0 events) := by
    unfold runFromStart
    apply trackingInvariant_runEvents
    refine ⟨?_, ?_, ?_⟩
    · simp [RecordingManager.startRecording, RecordingManager.initialState]
    · intro f
      simp [RecordingManager.startRecording, RecordingManager.initialState,
        sessionChanges]
    · simp [RecordingManager.startRecording, RecordingManager.initialState]
  obtain ⟨hnd, hmem, hcnt⟩ := hinv
  have hcount : (runFromStart eng pats g rn id t0 events).filesChangedCount =
      (sess.changes.map FileChange.file).dedup.length := by
    rw [hcnt]
    apply count_eq_dedup_length _ _ hnd
    intro f
    rw [hmem f]
    simp [sessionChanges, hs]
  refine ⟨?_, ?_, ?_⟩
  · simp [RecordingManager.stopRecording, hrec, hs]
  · simp [RecordingManager.finalizeSession, hcount]
  · decide

/-- Witness for C4 at a concrete run: one accepted save, then stop; the
persisted document is the finalized session. -/
theorem stats_correct_witness :
    (RecordingManager.stopRecording 120000 true
        (runFromStart noMatchEngine [] true "repo" "sid" 0
          [.save "b.ts" "x" 60000])).2.2 =
      some (RecordingManager.finalizeSession 120000
        (runFromStart noMatchEngine [] true "repo" "sid" 0
          [.save "b.ts" "x" 60000]).filesChangedCount
        { sessionId := "sid", startTime := 0, endTime := none,
          repository := some "repo",
          changes := [⟨"b.ts", 60000, "x"⟩], commits := [],
          stats := none, summary := none }) := by
  have h := stats_correct noMatchEngine [] true "repo" "sid" 0
    [.save "b.ts" "x" 60000] 120000 true
    { sessionId := "sid", startTime := 0, endTime := none,
      repository := some "repo",
      changes := [⟨"b.ts", 60000, "x"⟩], commits := [],
      stats := none, summary := none }
    (by decide)
  simpa using h.1

end CodeTrace

namespace CodeTrace

theorem listCharLe_cons_iff (a b : Char) (as bs : List Char) :
    listCharLe (a :: as) (b :: bs) = true ↔
      (a.toNat < b.toNat ∨ (a.toNat = b.toNat ∧ listCharLe as bs = true)) := by
  simp only [listCharLe]
  by_cases h1 : a.toNat < b.toNat
  · simp [h1]
  · by_cases h2 : b.toNat < a.toNat
    · simp only [if_neg h1, if_pos h2, Bool.false_eq_true, false_iff]
      rintro (h | ⟨h, _⟩) <;> omega
    · have heq : a.toNat = b.toNat := by omega
      simp [if_neg h1, if_neg h2, heq]

theorem listCharLe_trans : ∀ (l m k : List Char),
    listCharLe l m = true → listCharLe m k = true → listCharLe l k = true
  | [], _, _, _, _ => rfl
  | _ :: _, [], _, h1, _ => by simp [listCharLe] at h1
  | _ :: _, _ :: _, [], _, h2 => by simp [listCharLe] at h2
  | a :: as, b :: bs, c :: cs, h1, h2 => by
    rw [listCharLe_cons_iff] at h1 h2 ⊢
    rcases h1 with h1 | ⟨h1e, h1r⟩ <;> rcases h2 with h2 | ⟨h2e, h2r⟩
    · exact Or.inl (h1.trans h2)
    · exact Or.inl (by omega)
    · exact Or.inl (by omega)
    · exact Or.inr ⟨by omega, listCharLe_trans as bs cs h1r h2r⟩

theorem listCharLe_total : ∀ (l m : List Char),
    listCharLe l m = true ∨ listCharLe m l = true
  | [], _ => Or.inl rfl
  | _ :: _, [] => Or.inr rfl
  | a :: as, b :: bs => by
    rcases Nat.lt_trichotomy a.toNat b.toNat with h | h | h
    · exact Or.inl ((listCharLe_cons_iff a b as bs).mpr (Or.inl h))
    · rcases listCharLe_total as bs with hr | hr
      · exact Or.inl ((listCharLe_cons_iff a b as bs).mpr (Or.inr ⟨h, hr⟩))
      · exact Or.inr ((listCharLe_cons_iff b a bs as).mpr (Or.inr ⟨h.symm, hr⟩))
    · exact Or.inr ((listCharLe_cons_iff b a bs as).mpr (Or.inl h))

theorem strLe_refl (a : String) : strLe a a = true :=
  (listCharLe_total a.data a.data).elim id id

instance : IsTotal String strLeP :=
  ⟨fun a b => listCharLe_total a.data b.data⟩

instance : IsTrans String strLeP :=
  ⟨fun a b c h1 h2 => listCharLe_trans a.data b.data c.data h1 h2⟩

theorem cleanupOldSessions_drop (maxSessions : Nat) (hmax : 1 ≤ maxSessions) :
    ∀ l : List String,
      RecordingManager.cleanupOldSessions maxSessions l =
        l.drop (l.length + 1 - maxSessions) := by
  intro l
  induction l with
  | nil => simp [RecordingManager.cleanupOldSessions]
  | cons f rest ih =>
    simp only [RecordingManager.cleanupOldSessions]
    by_cases h : maxSessions ≤ rest.length + 1
    · rw [if_pos h, ih]
      have he : (f :: rest).length + 1 - maxSessions
          = (rest.length + 1 - maxSessions) + 1 := by
        simp only [List.length_cons]; omega
      rw [he, List.drop_succ_cons]
    · rw [if_neg h]
      have he : (f :: rest).length + 1 - maxSessions = 0 := by
        simp only [List.length_cons]; omega
      rw [he, List.drop_zero]

/-- Claim C5: before persisting a new session, while the count of stored
session documents is at or above the configured maximum the oldest
documents in filename order are deleted until the count is below the
maximum; saving a new session while exactly at the maximum deletes exactly
the one lexicographically least document and leaves the total count equal
to the maximum. -/
theorem retention_policy (maxSessions : Nat) (dir : List String) (newFile : String)
    (hmax : 1 ≤ maxSessions) (hnd : dir.Nodup)
    (hall : ∀ f ∈ dir, isSessionFileName f = true)
    (hlen : dir.length = maxSessions) (hnew : newFile ∉ dir) :
    (∀ l : List String, RecordingManager.cleanupOldSessions maxSessions l =
        l.drop (l.length + 1 - maxSessions)) ∧
    ∃ oldest, oldest ∈ dir ∧ (∀ f ∈ dir, strLeP oldest f) ∧
      (RecordingManager.saveSessionToFile maxSessions dir newFile).length = maxSessions ∧
      (∀ f, f ∈ RecordingManager.saveSessionToFile maxSessions dir newFile ↔
        ((f ∈ dir ∧ f ≠ oldest) ∨ f = newFile)) := by
  have hcleanup := cleanupOldSessions_drop maxSessions hmax
  refine ⟨hcleanup, ?_⟩
  have hfil : dir.filter (fun n => isSessionFileName n) = dir :=
    List.filter_eq_self.mpr hall
  set sorted := (dir.filter (fun n => isSessionFileName n)).insertionSort strLeP
    with hsorteddef
  have hperm : List.Perm sorted dir := by
    rw [hsorteddef, hfil]
    exact List.perm_insertionSort strLeP dir
  have hsortednd : sorted.Nodup := (hperm.nodup_iff).mpr hnd
  have hsorted : List.Sorted strLeP sorted := List.sorted_insertionSort strLeP _
  have hslen : sorted.length = maxSessions := by rw [hperm.length_eq, hlen]
  obtain ⟨oldest, keepTail, hsort⟩ :
      ∃ (a : String) (l : List String), sorted = a :: l := by
    cases hs : sorted with
    | nil => rw [hs] at hslen; simp at hslen; omega
    | cons a l => exact ⟨a, l, rfl⟩
  have hkeep : RecordingManager.cleanupOldSessions maxSessions sorted = keepTail := by
    rw [hcleanup, hslen]
    have h1 : maxSessions + 1 - maxSessions = 1 := by omega
    rw [h1, hsort, List.drop_one, List.tail_cons]
  have hkeeplen : keepTail.length = maxSessions - 1 := by
    rw [hsort] at hslen
    simp only [List.length_cons] at hslen
    omega
  have hnodup2 : oldest ∉ keepTail ∧ keepTail.Nodup := by
    rw [hsort] at hsortednd
    exact ⟨(List.nodup_cons.mp hsortednd).1, (List.nodup_cons.mp hsortednd).2⟩
  have holdmem : oldest ∈ dir := hperm.mem_iff.mp (by rw [hsort]; simp)
  have hmin : ∀ f ∈ dir, strLeP oldest f := by
    intro f hf
    have hfs : f ∈ sorted := hperm.mem_iff.mpr hf
    rw [hsort] at hfs
    rcases List.mem_cons.mp hfs with h | h
    · rw [h]; exact strLe_refl oldest
    · exact List.rel_of_sorted_cons (hsort ▸ hsorted) f h
  have hkt_iff : ∀ f, f ∈ keepTail ↔ (f ∈ dir ∧ f ≠ oldest) := by
    intro f
    constructor
    · intro hf
      refine ⟨hperm.mem_iff.mp (by rw [hsort]; exact List.mem_cons_of_mem _ hf), ?_⟩
      intro he
      rw [he] at hf
      exact hnodup2.1 hf
    · rintro ⟨hfd, hfne⟩
      have hfs : f ∈ sorted := hperm.mem_iff.mpr hfd
      rw [hsort] at hfs
      rcases List.mem_cons.mp hfs with h | h
      · exact absurd h hfne
      · exact h
  have hsave : RecordingManager.saveSessionToFile maxSessions dir newFile =
      dir.filter (fun n => decide (n ∈ keepTail)) ++ [newFile] := by
    simp only [RecordingManager.saveSessionToFile]
    rw [← hsorteddef, hkeep]
    refine congrArg (fun l => l ++ [newFile]) ?_
    apply List.filter_congr
    intro x hx
    simp [hall x hx]
  have hfilmem : ∀ f, f ∈ dir.filter (fun n => decide (n ∈ keepTail)) ↔ f ∈ keepTail := by
    intro f
    simp only [List.mem_filter, decide_eq_true_eq]
    constructor
    · rintro ⟨_, h⟩; exact h
    · intro h
      exact ⟨((hkt_iff f).mp h).1, h⟩
  have hfillen : (dir.filter (fun n => decide (n ∈ keepTail))).length = keepTail.length := by
    have h1 := count_eq_dedup_length (dir.filter (fun n => decide (n ∈ keepTail))) keepTail
      (hnd.filter _) hfilmem
    rw [h1, List.Nodup.dedup hnodup2.2]
  refine ⟨oldest, holdmem, hmin, ?_, ?_⟩
  · rw [hsave]
    simp only [List.length_append, List.length_singleton, hfillen, hkeeplen]
    omega
  · intro f
    rw [hsave]
    simp only [List.mem_append, List.mem_singleton]
    rw [hfilmem f, hkt_iff f]

/-- Witness for C5: with a maximum of three and exactly three stored
documents, saving a fourth deletes exactly the oldest and leaves three. -/
theorem retention_policy_witness :
    RecordingManager.saveSessionToFile 3
        ["session-1.json", "session-2.json", "session-3.json"] "session-4.json"
      = ["session-2.json", "session-3.json", "session-4.json"] ∧
    (RecordingManager.saveSessionToFile 3
        ["session-1.json", "session-2.json", "session-3.json"] "session-4.json").length
      = 3 := by
  have h := retention_policy 3 ["session-1.json", "session-2.json", "session-3.json"]
    "session-4.json" (by decide) (by decide) (by decide) rfl (by decide)
  refine ⟨by decide, ?_⟩
  obtain ⟨oldest, _, _, hl, _⟩ := h.2
  exact hl

end CodeTrace

namespace CodeTrace

theorem fileChange_roundTrip (c : FileChange) :
    FileChange.fromJson (FileChange.toJson c) = some c := by
  simp [FileChange.fromJson, FileChange.toJson, Json.getField, Json.findField,
    Json.asStr, Json.asNat, Option.bind]

theorem commitInfo_roundTrip (c : CommitInfo) :
    CommitInfo.fromJson (CommitInfo.toJson c) = some c := by
  simp [CommitInfo.fromJson, CommitInfo.toJson, Json.getField, Json.findField,
    Json.asStr, Json.asNat, Option.bind]

theorem sessionStats_roundTrip (st : SessionStats) :
    SessionStats.fromJson (SessionStats.toJson st) = some st := by
  simp [SessionStats.fromJson, SessionStats.toJson, Json.getField, Json.findField,
    Json.asStr, Json.asNat, Option.bind]

theorem decodeList_fileChange (l : List FileChange) :
    decodeList FileChange.fromJson (l.map FileChange.toJson) = some l := by
  induction l with
  | nil => rfl
  | cons c cs ih => simp [decodeList, fileChange_roundTrip, ih]

theorem decodeList_commitInfo (l : List CommitInfo) :
    decodeList CommitInfo.fromJson (l.map CommitInfo.toJson) = some l := by
  induction l with
  | nil => rfl
  | cons c cs ih => simp [decodeList, commitInfo_roundTrip, ih]

end CodeTrace

namespace CodeTrace

/-- Claim C6 core lemma: reading back the serialized document of a session
recovers every field of the session. -/
theorem sessionData_roundTrip (s : SessionData) :
    SessionData.fromJson (SessionData.toJson s) = some s := by
  obtain ⟨sid, st, et, repo, chs, cms, sts, sm⟩ := s
  cases et <;> cases repo <;> cases sts <;> cases sm <;>
    simp [SessionData.toJson, SessionData.fromJson, Json.getField, Json.findField,
      optField, Json.asStr, Json.asNat, Json.asArr, decodeList_fileChange,
      decodeList_commitInfo, sessionStats_roundTrip, Option.bind]

end CodeTrace

namespace CodeTrace

theorem storeRead_storeWrite (dir : List StoredFile) (name : String) (j : Json) :
    storeRead (storeWrite dir name j) name = some j := by
  simp only [storeRead, storeWrite]
  rw [List.find?_append]
  have h1 : (dir.filter (fun f => decide (f.name ≠ name))).find?
      (fun f => decide (f.name = name)) = none := by
    rw [List.find?_eq_none]
    intro x hx
    have hne := (List.mem_filter.mp hx).2
    simp only [decide_eq_true_eq] at hne ⊢
    exact hne
  rw [h1]
  simp [List.find?]

/-- Claim C6: for every finalized session, saving its document and loading
it back by its derived identifier yields a record equal to the session in
every field populated at save time; serialization followed by parsing is
the identity on session records. -/
theorem save_load_roundTrip (s : SessionData) (dir : List StoredFile) :
    (storeRead (storeWrite dir (sessionFilename s.startTime) (SessionData.toJson s))
        (sessionFilename s.startTime)).bind SessionData.fromJson = some s ∧
    SessionData.fromJson (SessionData.toJson s) = some s := by
  refine ⟨?_, sessionData_roundTrip s⟩
  rw [storeRead_storeWrite]
  simp [sessionData_roundTrip]

/-- Claim C8: loadAllSessions skips every stored document that fails to
parse instead of aborting the batch, and returns the parsed sessions most
recent first; over a directory with one corrupted document and two valid
ones it returns exactly the two valid sessions, most recent first.  Every
returned session comes from a document that parsed. -/
theorem loadAll_skips_corrupt (n1 n2 nc : String) (j1 j2 : Json)
    (h1 : isSessionFileName n1 = true) (h2 : isSessionFileName n2 = true)
    (hcn : isSessionFileName nc = true)
    (o2c : strLe n2 nc = true) (oc1 : strLe nc n1 = true)
    (ne2c : n2 ≠ nc) (nec1 : nc ≠ n1) (ne21 : n2 ≠ n1) :
    loadAllSessions [⟨n2, some j2⟩, ⟨nc, none⟩, ⟨n1, some j1⟩] = [j1, j2] ∧
    (∀ (dir : List StoredFile), ∀ j ∈ loadAllSessions dir,
      ∃ f ∈ dir, f.parsed = some j) := by
  constructor
  · simp [loadAllSessions, h1, h2, hcn, List.insertionSort, List.orderedInsert,
      strLeP, o2c, oc1, List.filterMap, List.find?, ne2c, nec1, ne21]
  · intro dir j hj
    simp only [loadAllSessions] at hj
    obtain ⟨n, hn, hfind⟩ := List.mem_filterMap.mp hj
    cases hf : dir.find? (fun f => decide (f.name = n)) with
    | none => rw [hf] at hfind; simp at hfind
    | some f =>
      rw [hf] at hfind
      simp only [Option.some_bind] at hfind
      exact ⟨f, List.mem_of_find?_eq_some hf, hfind⟩

/-- Witness for C8 at a concrete directory of three documents, the middle
one corrupted: the two valid sessions come back most recent first. -/
theorem loadAll_skips_corrupt_witness :
    loadAllSessions
        [⟨"session-1.json", some (.str "v1")⟩, ⟨"session-2.json", none⟩,
         ⟨"session-3.json", some (.str "v3")⟩]
      = [.str "v3", .str "v1"] :=
  (loadAll_skips_corrupt "session-3.json" "session-1.json" "session-2.json"
    (.str "v3") (.str "v1") (by decide) (by decide) (by decide) (by decide)
    (by decide) (by decide) (by decide) (by decide)).1

end CodeTrace

namespace CodeTrace

theorem shouldIgnoreFile_pos (eng : RegexEngine) (file : String)
    (p : String) (rest : List String) :
    1 ≤ (shouldIgnoreFile eng file (p :: rest)).2 := by
  simp only [shouldIgnoreFile]
  by_cases h : eng.test (globToRegexPattern p) file <;> simp [h]

/-- Claim C9 (amended): while recording with a current session, each
file-save notification appends a FileChangeEvent with timestamp now to the
changes unless the relative path matches a configured ignore rule; the
ignore patterns are translated and compiled afresh on every save event (at
least one compilation per event whenever any pattern is configured), not
evaluated against a precompiled set. -/
theorem ignore_rule_filtering (eng : RegexEngine) (pats : List String)
    (file content : String) (now : Nat) (s : RecordingManager.State)
    (sess : SessionData)
    (hrec : s.isRecording = true) (hs : s.currentSession = some sess) :
    ((shouldIgnoreFile eng file pats).1 = true →
      RecordingManager.recordFileSave eng pats file content now s =
        (s, (shouldIgnoreFile eng file pats).2)) ∧
    ((shouldIgnoreFile eng file pats).1 = false →
      ∃ sess2,
        (RecordingManager.recordFileSave eng pats file content now s).1.currentSession
          = some sess2 ∧
        sess2.changes = sess.changes ++ [⟨file, now, content⟩] ∧
        (RecordingManager.recordFileSave eng pats file content now s).2 =
          (shouldIgnoreFile eng file pats).2) ∧
    (pats ≠ [] → 1 ≤ (RecordingManager.recordFileSave eng pats file content now s).2) := by
  refine ⟨?_, ?_, ?_⟩
  · intro hig
    simp [RecordingManager.recordFileSave, hs, hrec, hig]
  · intro hig
    by_cases hfm : file ∈ s.uniqueFilesChanged <;>
      exact ⟨{ sess with changes := sess.changes ++ [⟨file, now, content⟩] },
        by simp [RecordingManager.recordFileSave, hs, hrec, hig, hfm], rfl,
        by simp [RecordingManager.recordFileSave, hs, hrec, hig, hfm]⟩
  · intro hne
    obtain ⟨p, rest, hp⟩ : ∃ p rest, pats = p :: rest := by
      cases pats with
      | nil => exact absurd rfl hne
      | cons p rest => exact ⟨p, rest, rfl⟩
    have hcomp : (RecordingManager.recordFileSave eng pats file content now s).2 =
        (shouldIgnoreFile eng file pats).2 := by
      by_cases hig : (shouldIgnoreFile eng file pats).1 <;>
        by_cases hfm : file ∈ s.uniqueFilesChanged <;>
        simp [RecordingManager.recordFileSave, hs, hrec, hig, hfm]
    rw [hcomp, hp]
    exact shouldIgnoreFile_pos eng file p rest

/-- Witness for the amended C9: a concrete accepted save appends the change
and performs exactly one compilation of the single configured pattern. -/
theorem ignore_rule_filtering_witness :
    ∃ sess2,
      (RecordingManager.recordFileSave noMatchEngine ["node_modules"]
          "a.ts" "x" 60000 exampleRecordingState).1.currentSession = some sess2 ∧
      sess2.changes = exampleSession.changes ++ [⟨"a.ts", 60000, "x"⟩] ∧
      (RecordingManager.recordFileSave noMatchEngine ["node_modules"]
          "a.ts" "x" 60000 exampleRecordingState).2 =
        (shouldIgnoreFile noMatchEngine "a.ts" ["node_modules"]).2 := by
  have h := ignore_rule_filtering noMatchEngine ["node_modules"] "a.ts" "x" 60000
    exampleRecordingState exampleSession rfl rfl
  exact h.2.1 (by decide)

/-- Claim C9 counterexample: with one configured pattern, two save events
perform two regex compilations in total; under the claimed precompiled
pattern set the total would be bounded by the number of configured patterns
independently of the number of events. -/
theorem ignore_recompiled_counterexample :
    (RecordingManager.runEvents noMatchEngine ["node_modules"]
        (RecordingManager.startRecording true false "repo" "sid" 0
          RecordingManager.initialState)
        [.save "a.ts" "x" 1, .save "b.ts" "y" 2]).2 = 2 ∧
    ¬ ((RecordingManager.runEvents noMatchEngine ["node_modules"]
        (RecordingManager.startRecording true false "repo" "sid" 0
          RecordingManager.initialState)
        [.save "a.ts" "x" 1, .save "b.ts" "y" 2]).2 ≤
      (["node_modules"] : List String).length) := by
  decide

end CodeTrace
